import Mathlib

/-!
Shallow embedding of the MCP NotesHub core: the semantic deduplicator and its
similarity measure (src/mcp-server/utils/rag_helper.py), the retrieval router
`get_relevant_chunks`, the session-cache endpoints of src/mcp-server/main.py,
and the context-aware segmenter of src/mcp-server/utils/unstructured_helper.py,
together with theorems settling the specification's testable properties.
-/

namespace NotesHub

/-!
### Similarity measure

`is_similar` in utils/rag_helper.py computes
`SequenceMatcher(None, a, b).ratio()` from Python's difflib.  The embedding
below is that algorithm for the junk-free instance: no junk argument is passed
by the repository, and every string this file evaluates the measure on is far
below the autojunk cutoff of 200 characters, so the junk machinery is inert.
Floats are rendered as rationals; at every input evaluated in this file the
float and the rational results coincide exactly.  The sort/coalesce pass of
`get_matching_blocks` and its zero-size terminator are omitted: they do not
change the total matched size, which is all `ratio` reads.
-/

/-- Result of difflib's `find_longest_match`: block start in `a`, block start
in `b`, and block size. -/
structure FlmRes where
  besti : ℕ
  bestj : ℕ
  size : ℕ
deriving DecidableEq, Repr

/-- Positions (ascending) at which character `c` occurs in `b`: difflib's
`b2j` table looked up at `c`. -/
def b2j (b : List Char) (c : Char) : List ℕ :=
  (List.range b.length).filter (fun j => b.getD j ' ' = c)

/-- The dynamic-programming loop of `find_longest_match`: for each `i` in
`[alo, ahi)` walk the occurrences of `a[i]` in `b` restricted to `[blo, bhi)`,
extending diagonal runs recorded in the previous row (`j2len`), and track the
first longest block found. -/
def flmFold (a b : List Char) (alo ahi blo bhi : ℕ) : (ℕ → ℕ) × FlmRes :=
  (List.range' alo (ahi - alo)).foldl
    (fun st i =>
      let j2len := st.1
      ((b2j b (a.getD i ' ')).filter (fun j => decide (blo ≤ j) && decide (j < bhi))).foldl
        (fun st2 j =>
          let k := (if j = 0 then 0 else j2len (j - 1)) + 1
          ((fun x => if x = j then k else st2.1 x),
           if k > st2.2.size then ⟨i + 1 - k, j + 1 - k, k⟩ else st2.2))
        ((fun _ => 0), st.2))
    ((fun _ => 0), ⟨alo, blo, 0⟩)

/-- Junk-free left-extension loop of `find_longest_match`
(`while besti > alo and bestj > blo and a[besti-1] == b[bestj-1]`).
The fuel argument is an upper bound on the number of iterations; it is
instantiated with `besti`, which suffices because `besti` decreases by one
per iteration. -/
def extLeft (a b : List Char) (alo blo : ℕ) : ℕ → ℕ → ℕ → ℕ → ℕ × ℕ × ℕ
  | 0, bi, bj, sz => (bi, bj, sz)
  | fuel + 1, bi, bj, sz =>
    if alo < bi ∧ blo < bj then
      match a.get? (bi - 1), b.get? (bj - 1) with
      | some x, some y =>
        if x = y then extLeft a b alo blo fuel (bi - 1) (bj - 1) (sz + 1)
        else (bi, bj, sz)
      | _, _ => (bi, bj, sz)
    else (bi, bj, sz)

/-- Junk-free right-extension loop of `find_longest_match`
(`while besti+bestsize < ahi and bestj+bestsize < bhi and a[...] == b[...]`).
Fuel is instantiated with `ahi`, an upper bound on the iteration count. -/
def extRight (a b : List Char) (ahi bhi : ℕ) : ℕ → ℕ → ℕ → ℕ → ℕ
  | 0, _, _, sz => sz
  | fuel + 1, bi, bj, sz =>
    if bi + sz < ahi ∧ bj + sz < bhi then
      match a.get? (bi + sz), b.get? (bj + sz) with
      | some x, some y => if x = y then extRight a b ahi bhi fuel bi bj (sz + 1) else sz
      | _, _ => sz
    else sz

/-- difflib's `find_longest_match` on the slice `a[alo:ahi]`, `b[blo:bhi]`,
junk-free instance. -/
def find_longest_match (a b : List Char) (alo ahi blo bhi : ℕ) : FlmRes :=
  let m := (flmFold a b alo ahi blo bhi).2
  let e := extLeft a b alo blo m.besti m.besti m.bestj m.size
  ⟨e.1, e.2.1, extRight a b ahi bhi ahi e.1 e.2.1 e.2.2⟩

/-- Total size of the matching blocks found by the recursive splitting of
`get_matching_blocks` (the queue in difflib, rendered as recursion).  Fuel
bounds the recursion depth; `matchesTotal` instantiates it generously. -/
def matchesSum (a b : List Char) : ℕ → ℕ → ℕ → ℕ → ℕ → ℕ
  | 0, _, _, _, _ => 0
  | fuel + 1, alo, ahi, blo, bhi =>
    let m := find_longest_match a b alo ahi blo bhi
    if m.size = 0 then 0
    else
      m.size
        + (if alo < m.besti ∧ blo < m.bestj then
            matchesSum a b fuel alo m.besti blo m.bestj else 0)
        + (if m.besti + m.size < ahi ∧ m.bestj + m.size < bhi then
            matchesSum a b fuel (m.besti + m.size) ahi (m.bestj + m.size) bhi else 0)

/-- `SequenceMatcher(None, a, b).ratio()`: twice the total matched size over
the total length, as an exact rational. -/
def ratio (a b : String) : ℚ :=
  let la := a.data.length
  let lb := b.data.length
  if la + lb = 0 then 1
  else 2 * (matchesSum a.data b.data (la + lb + 1) 0 la 0 lb : ℚ) / ((la : ℚ) + (lb : ℚ))

/-- `is_similar(a, b, threshold)` from utils/rag_helper.py:
`SequenceMatcher(None, a, b).ratio() > threshold`. -/
def is_similar (a b : String) (threshold : ℚ) : Bool :=
  decide (ratio a b > threshold)

/-!
### Semantic deduplicator

`deduplicate_semantic` from utils/rag_helper.py: walk the candidates in input
order, keep a chunk only when it is not similar to any already-kept chunk.
-/

/-- The accumulator loop of `deduplicate_semantic`: `unique` is the list of
already-accepted chunks (in acceptance order). -/
def dedupGo (threshold : ℚ) : List String → List String → List String
  | [], unique => unique
  | chunk :: rest, unique =>
    if unique.any (fun u => is_similar chunk u threshold) then
      dedupGo threshold rest unique
    else
      dedupGo threshold rest (unique ++ [chunk])

/-- `deduplicate_semantic(chunks, threshold)` from utils/rag_helper.py
(the repository always uses the default threshold 0.9). -/
def deduplicate_semantic (chunks : List String) (threshold : ℚ) : List String :=
  dedupGo threshold chunks []

/-- The deduplication algorithm exactly as the specification words it
(claim C5): accept a candidate iff its similarity ratio to every accepted
chunk is strictly below the threshold. -/
def dedupSpecStrict (chunks : List String) (threshold : ℚ) : List String :=
  chunks.foldl
    (fun acc c => if acc.all (fun u => decide (ratio c u < threshold)) then acc ++ [c] else acc)
    []

/-- The specification's deduplication algorithm with the strict comparison
amended to "at most the threshold", matching the code's `ratio > threshold`
rejection test. -/
def dedupSpecLe (chunks : List String) (threshold : ℚ) : List String :=
  chunks.foldl
    (fun acc c => if acc.all (fun u => decide (ratio c u ≤ threshold)) then acc ++ [c] else acc)
    []

/-!
### Python string primitives

`str.strip()`, `len(str.split())` and `str.endswith` over explicit character
lists (structural recursion, so they evaluate by kernel reduction; Lean's
built-in `String.trim`/`String.endsWith` are well-founded definitions that
do not).
-/

/-- Whitespace as Python's strip/split see it (ASCII range). -/
def ws (c : Char) : Bool := c.isWhitespace

/-- Python `str.strip()` on a character list. -/
def strip (s : List Char) : List Char :=
  ((s.dropWhile ws).reverse.dropWhile ws).reverse

/-- Python `str.strip()` on a string. -/
def pyStrip (s : String) : String := ⟨strip s.data⟩

/-- Python `str.endswith(suffix)`. -/
def endswith (s suffix : String) : Bool := suffix.data.isSuffixOf s.data

/-- Word-count accumulator for Python `len(s.split())`: the flag records
whether the previous character was inside a word. -/
def wcAux : Bool → List Char → ℕ
  | _, [] => 0
  | inw, c :: s => if ws c then wcAux false s else (if inw then 0 else 1) + wcAux true s

/-- `len(s.split())`: the number of maximal nonwhitespace runs. -/
def wordCount (s : List Char) : ℕ := wcAux false s

/-!
### Retrieval router

`get_relevant_chunks(file_name, topic, k)` from utils/rag_helper.py.  The
external collaborators (the Unstructured parsers, the text splitter, the
Chroma vector store and its retriever, and the notes-directory listing) are
modelled as oracles collected in `Env`; everything the repository's own code
does with their results is embedded directly.  Python truthiness of the
optional string parameters (None and "" are both falsy) is `truthy`.
-/

/-- Oracles for the external collaborators of utils/rag_helper.py.
`corpus` is `os.listdir(NOTES_DIR)` in listing order; `fileExists f` is
`(NOTES_DIR / f).exists()`; `fileOnly f` is the page contents produced for
`f` by `safe_partition` + `RecursiveCharacterTextSplitter.create_documents`
in the file-only branch (error = any exception raised there); and
`indexQuery f t k` is the page contents of
`build_vectorstore(f).as_retriever(search_kwargs={"k": k}).invoke(t)` after
the file-existence check, with errors for any exception raised by parsing,
embedding or querying. -/
structure Env where
  corpus : List String
  fileExists : String → Bool
  fileOnly : String → Except String (List String)
  indexQuery : String → String → ℕ → Except String (List String)

/-- Failure kinds of `get_relevant_chunks`, keyed by raise site:
`invalidQuery` is the ValueError for a query with no file and no topic,
`fileNotFound` the FileNotFoundError for a named file missing from the notes
directory, and `upstream` wraps any error surfaced by an external
collaborator. -/
inductive RagError where
  | invalidQuery : RagError
  | fileNotFound : String → RagError
  | upstream : String → RagError
deriving DecidableEq

/-- The string rendering `str(e)` of each error, as main.py's exception
handler reports it (the absolute notes-directory path in the
FileNotFoundError text is elided). -/
def RagError.msg : RagError → String
  | .invalidQuery => "❌ Please provide at least a file name or a topic."
  | .fileNotFound f => "File " ++ "'" ++ f ++ "'" ++ " not found in notes directory"
  | .upstream m => m

/-- Python truthiness of an optional string parameter: None and the empty
string are falsy. -/
def truthy : Option String → Bool
  | none => false
  | some s => s != ""

/-- The dict returned by `get_relevant_chunks`. -/
structure RetrievalResult where
  mode : String
  file : Option String
  topic : Option String
  total_chunks : ℕ
  context_chunks : List String
deriving DecidableEq

/-- The strip-and-drop-empties comprehension
`[d.strip() for d in docs if d.strip()]` used on every retrieved chunk
list. -/
def stripFilter (l : List String) : List String :=
  (l.map pyStrip).filter (fun s => s != "")

/-- `build_vectorstore(f)` followed by a retriever query: the repository's
own file-existence check in `build_vectorstore` raises FileNotFoundError
before any external work happens; everything after it is the `indexQuery`
oracle. -/
def build_and_query (env : Env) (f t : String) (k : ℕ) : Except RagError (List String) :=
  if env.fileExists f = false then .error (.fileNotFound f)
  else
    match env.indexQuery f t k with
    | .error m => .error (.upstream m)
    | .ok l => .ok l

/-- Exact-match order-preserving deduplication, `list(dict.fromkeys(l))`. -/
def dedupExact (l : List String) : List String :=
  l.foldl (fun acc c => if c ∈ acc then acc else acc ++ [c]) []

/-- Supported-extension test of the topic-only corpus walk:
`file.endswith(('.pdf', '.docx', '.txt', '.md', '.html'))`. -/
def supportedExt (f : String) : Bool :=
  endswith f ".pdf" || endswith f ".docx" || endswith f ".txt" || endswith f ".md"
    || endswith f ".html"

/-- One step of the topic-only corpus accumulation loop: skip unsupported
extensions, accumulate the stripped nonempty page contents on success, and
skip the document on any failure (the `except` that logs and continues). -/
def topicStep (env : Env) (t : String) (k : ℕ) (acc : List String) (f : String) :
    List String :=
  if supportedExt f = false then acc
  else
    match build_and_query env f t k with
    | .ok raws => acc ++ stripFilter raws
    | .error _ => acc

/-- `get_relevant_chunks(file_name, topic, k)` from utils/rag_helper.py:
raise for a fully-falsy query, else dispatch on which parameters are truthy
to the file-only, topic-only, or file-and-topic branch. -/
def get_relevant_chunks (env : Env) (file_name topic : Option String) (k : ℕ) :
    Except RagError RetrievalResult :=
  if truthy file_name = false ∧ truthy topic = false then .error .invalidQuery
  else if truthy file_name = true ∧ truthy topic = false then
    let f := file_name.getD ""
    if env.fileExists f = false then .error (.fileNotFound f)
    else
      match env.fileOnly f with
      | .error m => .error (.upstream m)
      | .ok docs =>
        let chunks := stripFilter docs
        .ok ⟨"file_only", file_name, none, chunks.length, chunks⟩
  else if truthy topic = true ∧ truthy file_name = false then
    let t := topic.getD ""
    let all := env.corpus.foldl (topicStep env t k) []
    let chunks := dedupExact all
    .ok ⟨"topic_only", none, topic, chunks.length, chunks⟩
  else
    match build_and_query env (file_name.getD "") (topic.getD "") k with
    | .error e => .error e
    | .ok raws =>
      let chunks := deduplicate_semantic (stripFilter raws) (9 / 10)
      .ok ⟨"file_and_topic", file_name, topic, chunks.length, chunks⟩

/-!
### Session cache

The four endpoints of src/mcp-server/main.py over the global `chunk_cache`
dict.  `random.choice(lst)` is modelled by an adversarially-quantified draw
`r : ℕ` selecting `lst[r % len(lst)]`; theorems quantify over all draws.
-/

/-- One cached session: the dict stored per cache key. -/
structure Session where
  file : Option String
  topic : Option String
  chunks : List String
  served : Finset ℕ
  mode : String
deriving DecidableEq

/-- The in-memory cache, a partial map from cache key to session. -/
abbrev Cache : Type := String → Option Session

/-- The cache with no sessions. -/
def emptyCache : Cache := fun _ => none

/-- Store a session under a key. -/
def Cache.update (c : Cache) (key : String) (s : Session) : Cache :=
  fun k => if k = key then some s else c k

/-- `del chunk_cache[key]`. -/
def Cache.erase (c : Cache) (key : String) : Cache :=
  fun k => if k = key then none else c k

/-- `x or 'none'`: the sentinel substitution in the cache-key f-string. -/
def orNone : Option String → String
  | none => "none"
  | some s => if s = "" then "none" else s

/-- The cache key `f"{file or 'none'}::{topic or 'none'}"` shared by the
query, clear and stop endpoints. -/
def cacheKey (file topic : Option String) : String :=
  orNone file ++ "::" ++ orNone topic

/-- The response dict of the query endpoint.  A field holds `none` exactly
when the corresponding key is absent from the returned dict (no returned
dict of main.py maps a present key of these types to Python None, except
`file`/`topic`/`mode` whose value type is itself optional). -/
structure QueryResponse where
  message : Option String
  mode : Option String
  file : Option (Option String)
  topic : Option (Option String)
  chunk_index : Option ℕ
  chunk : Option String
  remaining : Option ℕ
  error : Option String
deriving DecidableEq

/-- The response with every field absent. -/
def noResponse : QueryResponse := ⟨none, none, none, none, none, none, none, none⟩

/-- The unserved chunk contents of a session, in index order:
`[c for i, c in enumerate(session["chunks"]) if i not in session["served"]]`. -/
def remainingOf (s : Session) : List String :=
  ((s.chunks.enum.filter (fun p => p.1 ∉ s.served)).map (fun p => p.2))

/-- `GET /tools/query` (`get_chunk(file, topic)` in main.py): serve a random
unserved chunk from a live session, clearing it on exhaustion; on a cache
miss run the retrieval router, build a session, and immediately serve one
chunk.  Returns the new cache and the response dict. -/
def get_chunk (env : Env) (cache : Cache) (file topic : Option String) (r : ℕ) :
    Cache × QueryResponse :=
  let key := cacheKey file topic
  match cache key with
  | some session =>
    let remaining := remainingOf session
    if remaining = [] then
      (cache.erase key, { noResponse with message := some "🧹 All chunks served. Cache cleared." })
    else
      let chunk := remaining.getD (r % remaining.length) ""
      let idx := session.chunks.indexOf chunk
      (cache.update key { session with served := insert idx session.served },
       ⟨some "✅ Served from cache.", some session.mode, some session.file, some session.topic,
        some (idx + 1), some chunk, some (remaining.length - 1), none⟩)
  | none =>
    match get_relevant_chunks env file topic 5 with
    | .error e => (cache, { noResponse with error := some e.msg })
    | .ok result =>
      if result.context_chunks = [] then
        (cache,
         { noResponse with
            message := some "⚠️ No relevant chunks found.", mode := some result.mode })
      else
        let chunks := result.context_chunks
        let first_chunk := chunks.getD (r % chunks.length) ""
        let idx := chunks.indexOf first_chunk
        (cache.update key ⟨file, topic, chunks, {idx}, result.mode⟩,
         ⟨some "🆕 Cache created and first chunk served.", some result.mode, some file,
          some topic, none, some first_chunk, some (chunks.length - 1), none⟩)

/-- `file or '*'`: the substitution in the clear endpoint's message. -/
def orStar : Option String → String
  | none => "*"
  | some s => if s = "" then "*" else s

/-- `GET /tools/clear` (`clear_cache(file, topic)` in main.py). -/
def clear_cache (cache : Cache) (file topic : Option String) : Cache × String :=
  let key := cacheKey file topic
  match cache key with
  | some _ =>
    (cache.erase key,
     "🧹 Cache cleared for query (" ++ orStar file ++ ", " ++ orStar topic ++ ")")
  | none => (cache, "No cache found to clear.")

/-- `GET /tools/stop` (`stop_session(file, topic)` in main.py). -/
def stop_session (cache : Cache) (file topic : Option String) : Cache × String :=
  let key := cacheKey file topic
  match cache key with
  | some _ => (cache.erase key, "🛑 Session stopped and cache cleared.")
  | none => (cache, "No active session to stop.")

/-!
### Sentinel-collision characterisation for the cache key

`cacheKey none (some x) = cacheKey (some x) none` reduces to the word
equation `"none::" ++ y = y ++ "::none"` over `y = orNone x`, whose
solutions are exactly the chains `"none"`, `"none::none"`, ... below.
-/

/-- `"none::"` as a character list. -/
def n6 : List Char := ['n', 'o', 'n', 'e', ':', ':']

/-- `"::none"` as a character list. -/
def c6 : List Char := [':', ':', 'n', 'o', 'n', 'e']

/-- The chain `"none" ("::none")^k`, i.e. `("none::")^k "none"`. -/
def noneChainL : ℕ → List Char
  | 0 => ['n', 'o', 'n', 'e']
  | k + 1 => n6 ++ noneChainL k

/-!
### Segmenter

`extract_chunks(file_path, max_chars)` from utils/unstructured_helper.py,
embedded from the parsed elements onward (the file-existence check and the
`partition` call are external).  Text is modelled as `List Char`; Python's
`strip`, `split` word counting, and the three regex tests are embedded
below.
-/

/-- One parsed element: its text and the name of its Unstructured class
(`type(el).__name__`). -/
structure TextElement where
  text : List Char
  kind : String

/-- The regex word-character class `\w` (ASCII reading). -/
def isWordChar (c : Char) : Bool := c.isAlphanum || c = '_'

/-- The auxiliary/linking verbs of the fragment test. -/
def auxWords : List (List Char) :=
  ["is", "are", "was", "were", "has", "have", "can", "should", "will", "be"].map String.data

/-- Does word `w` match in `s` at position `i` with `\b` boundaries on both
sides? -/
def matchWordAt (s w : List Char) (i : ℕ) : Bool :=
  decide ((s.drop i).take w.length = w)
    && (decide (i = 0) || !isWordChar (s.getD (i - 1) ' '))
    && (decide (s.length ≤ i + w.length) || !isWordChar (s.getD (i + w.length) ' '))

/-- `re.search(r"\b(is|are|was|were|has|have|can|should|will|be)\b", s)`. -/
def hasAux (s : List Char) : Bool :=
  (List.range s.length).any (fun i => auxWords.any (fun w => matchWordAt s w i))

/-- `s.lower()`. -/
def lower (s : List Char) : List Char := s.map Char.toLower

/-- `re.search(r":$", s)` for a string with no trailing newline. -/
def endsColon (s : List Char) : Bool := s.getLast? = some ':'

/-- `re.search(r"[.!?]$", s)` for a string with no trailing newline. -/
def endsPunct (s : List Char) : Bool :=
  s.getLast? = some '.' || s.getLast? = some '!' || s.getLast? = some '?'

/-- `re.match(r"^[-•]|\w+:", s)`: starts with a dash or bullet, or with a
nonempty word-character run followed immediately by a colon (a colon is not
a word character, so the greedy run is the only candidate). -/
def startDashOrWordColon (s : List Char) : Bool :=
  (s.headD ' ' = '-' || s.headD ' ' = '•')
    || (decide (s.takeWhile isWordChar ≠ []) && s.getD (s.takeWhile isWordChar).length ' ' = ':')

/-- The fragment test of extract_chunks: fewer than 8 words, no terminal
sentence punctuation, and no auxiliary verb. -/
def isFragment (s : List Char) : Bool :=
  decide (wordCount s < 8) && !endsPunct s && !hasAux (lower s)

/-- `"\n".join(ts)`. -/
def joinNL : List (List Char) → List Char
  | [] => []
  | [t] => t
  | t :: ts => t ++ '\n' :: joinNL ts

/-- `chunks[-1] += "\n" + t` (appending to an empty chunk list, which the
caller's guard precludes, is rendered as a one-chunk list). -/
def appendLast : List (List Char) → List Char → List (List Char)
  | [], t => [t]
  | [c], t => [c ++ '\n' :: t]
  | c :: rest, t => c :: appendLast rest t

/-- The lead-in lookahead scan of extract_chunks: starting after the lead-in
element, skip whitespace-only elements, stop (consuming nothing further) at a
Title or at a paragraph of more than 60 words or at the first ordinary
paragraph, and collect list items and short dash/word-colon lines.  Returns
the collected stripped texts and the number of elements consumed. -/
def lookahead : List TextElement → List (List Char) × ℕ
  | [] => ([], 0)
  | e :: rest =>
    let t := strip e.text
    if t = [] then
      let r := lookahead rest
      (r.1, r.2 + 1)
    else if e.kind = "Title" ∨ wordCount t > 60 then ([], 0)
    else if e.kind = "ListItem" ∨ startDashOrWordColon t = true then
      let r := lookahead rest
      (t :: r.1, r.2 + 1)
    else ([], 0)

/-- The main while-loop of extract_chunks.  State: the elements still to
process, the chunk in progress (`current_chunk`), the kind of the element
last appended (`current_type`), and the chunks emitted so far. -/
def segLoop (maxChars : ℕ) : List TextElement → List Char → Option String →
    List (List Char) → List (List Char)
  | [], cur, _, chunks => if strip cur = [] then chunks else chunks ++ [strip cur]
  | e :: rest, cur, ty, chunks =>
    let t := strip e.text
    if t = [] then segLoop maxChars rest cur ty chunks
    else
      let la := lookahead rest
      let doMerge := endsColon t = true ∧ wordCount t < 30 ∧ la.1 ≠ []
      let t2 := if doMerge then t ++ '\n' :: joinNL la.1 else t
      let rest2 := if doMerge then rest.drop la.2 else rest
      if isFragment t2 = true ∧ chunks ≠ [] then
        segLoop maxChars rest2 cur ty (appendLast chunks t2)
      else
        let br := cur.length + t2.length > maxChars ∨ e.kind = "Title" ∨
          (ty.isSome = true ∧ ty ≠ some e.kind ∧ cur.length > 0)
        let chunks2 := if br then chunks ++ [strip cur] else chunks
        let cur2 := if br then ([] : List Char) else cur
        let cur3 := if cur2 = [] then t2 else cur2 ++ '\n' :: t2
        segLoop maxChars rest2 cur3 (some e.kind) chunks2
termination_by els => els.length
decreasing_by
  · simp
  · simp only [List.length_cons]
    split
    · have := List.length_drop (lookahead rest).2 rest
      omega
    · omega
  · simp only [List.length_cons]
    split
    · have := List.length_drop (lookahead rest).2 rest
      omega
    · omega

/-- The chunk list of `extract_chunks` before the closing 5-word filter. -/
def extract_chunks_raw (elements : List TextElement) (maxChars : ℕ) : List (List Char) :=
  segLoop maxChars elements [] none []

/-- `extract_chunks(file_path, max_chars)` from the parsed elements onward:
the segmentation loop followed by
`[c for c in chunks if len(c.split()) > 5]`. -/
def extract_chunks (elements : List TextElement) (maxChars : ℕ) : List (List Char) :=
  (extract_chunks_raw elements maxChars).filter (fun c => decide (wordCount c > 5))

/-- The non-whitespace characters of a text, as a multiset (chunk text is
reordered relative to element order only across, never within, chunks). -/
def nwM (s : List Char) : Multiset Char := ((s.filter (fun c => !ws c) : List Char) : Multiset Char)

/-- Total non-whitespace content of a chunk list. -/
def chunkSum (l : List (List Char)) : Multiset Char := (l.map nwM).sum

/-- Total non-whitespace content of an element list. -/
def elemSum (els : List TextElement) : Multiset Char := (els.map (fun e => nwM e.text)).sum

/-!
### Concrete environments for witnesses and counterexamples
-/

/-- An environment in which every retrieval fails. -/
def envFail : Env :=
  ⟨[], fun _ => false, fun _ => .error "parse failure", fun _ _ _ => .error "index failure"⟩

/-- An environment in which file-only retrieval succeeds with zero chunks. -/
def envEmptyChunks : Env := ⟨[], fun _ => true, fun _ => .ok [], fun _ _ _ => .ok []⟩

/-- An environment in which file-only retrieval returns two chunks with the
same content. -/
def envDupChunks : Env := ⟨[], fun _ => true, fun _ => .ok ["a", "a"], fun _ _ _ => .ok []⟩

/-- An environment in which file-only retrieval returns two distinct
chunks. -/
def envTwoChunks : Env := ⟨[], fun _ => true, fun _ => .ok ["a", "b"], fun _ _ _ => .ok []⟩

/-- An environment whose corpus holds one document with a failing index
build and one healthy document. -/
def envSkip : Env :=
  ⟨["bad.md", "good.md"], fun _ => true, fun _ => .error "unused",
   fun f _ _ => if f = "bad.md" then .error "index build failure" else .ok ["hello world"]⟩

/-!
## Theorems

### Deduplicator (claims C5, C6)
-/

set_option maxRecDepth 4000 in
/-- Two concrete ten-character strings whose similarity ratio is exactly the
default threshold: nine matched characters out of a total length of twenty. -/
lemma ratio_at_threshold : ratio "aaaaaaaaac" "aaaaaaaaab" = 9 / 10 := by
  have hm : matchesSum "aaaaaaaaac".data "aaaaaaaaab".data 21 0 10 0 10 = 9 := by decide
  have h1 : "aaaaaaaaac".data.length = 10 := rfl
  have h2 : "aaaaaaaaab".data.length = 10 := rfl
  simp only [ratio, h1, h2, hm]
  norm_num

/-- At ratio exactly 0.9 the code's `ratio > threshold` test reports the
chunks as not similar. -/
lemma is_similar_at_threshold : is_similar "aaaaaaaaac" "aaaaaaaaab" (9 / 10) = false := by
  simp [is_similar, ratio_at_threshold]

/-- Rejecting when some accepted chunk satisfies `ratio > threshold` is the
same test as accepting when every accepted chunk satisfies
`ratio ≤ threshold`. -/
lemma any_similar_eq_false_iff (c : String) (l : List String) (thr : ℚ) :
    (l.any fun u => is_similar c u thr) = false ↔
      (l.all fun u => decide (ratio c u ≤ thr)) = true := by
  induction l with
  | nil => simp
  | cons a l ih =>
    rw [List.any_cons, List.all_cons, Bool.or_eq_false_iff, Bool.and_eq_true, ih]
    simp [is_similar, not_lt]

/-- The accumulator loop of `deduplicate_semantic` is the specification's
left fold with the at-most-threshold acceptance test. -/
lemma dedupGo_eq_foldl (thr : ℚ) (l : List String) : ∀ acc : List String,
    dedupGo thr l acc =
      l.foldl (fun a c => if a.all (fun u => decide (ratio c u ≤ thr)) then a ++ [c] else a)
        acc := by
  induction l with
  | nil => intro acc; rfl
  | cons c rest ih =>
    intro acc
    rw [dedupGo, List.foldl_cons]
    cases hb : (acc.any fun u => is_similar c u thr) with
    | false =>
      have hall := (any_similar_eq_false_iff c acc thr).mp hb
      rw [if_neg (by simp [hb]), if_pos hall, ih]
    | true =>
      have hall : (acc.all fun u => decide (ratio c u ≤ thr)) = false := by
        cases hq : (acc.all fun u => decide (ratio c u ≤ thr)) with
        | false => rfl
        | true =>
          have := (any_similar_eq_false_iff c acc thr).mpr hq
          rw [this] at hb
          exact absurd hb (by simp)
      rw [if_pos (by simp [hb]), if_neg (by simp [hall]), ih]

/-- C5, corrected: `deduplicate_semantic` processes candidates in input
order starting from an empty accepted set and accepts a candidate if and
only if its similarity ratio to every already-accepted chunk is at most the
threshold (not strictly below it); the output is the accepted chunks in
input order, i.e. the function coincides with the specification's greedy
fold amended from a strict to a non-strict comparison. -/
theorem deduplicate_semantic_greedy_le (chunks : List String) (threshold : ℚ) :
    deduplicate_semantic chunks threshold = dedupSpecLe chunks threshold :=
  dedupGo_eq_foldl threshold chunks []

/-- C5, counterexample to the claim as stated: on a pair of chunks whose
similarity ratio is exactly the default threshold 0.9, the code accepts the
second chunk, while the claimed strictly-below acceptance rule rejects it. -/
theorem dedup_accepts_ratio_equal_threshold :
    ratio "aaaaaaaaac" "aaaaaaaaab" = 9 / 10 ∧
      deduplicate_semantic ["aaaaaaaaab", "aaaaaaaaac"] (9 / 10) =
        ["aaaaaaaaab", "aaaaaaaaac"] ∧
      dedupSpecStrict ["aaaaaaaaab", "aaaaaaaaac"] (9 / 10) = ["aaaaaaaaab"] := by
  refine ⟨ratio_at_threshold, ?_, ?_⟩
  · simp [deduplicate_semantic, dedupGo, is_similar_at_threshold]
  · simp [dedupSpecStrict, ratio_at_threshold]

/-- Every element of the output of the accumulator loop beyond the initial
accumulator was accepted against exactly the accumulator contents that
preceded it. -/
lemma dedupGo_shape (thr : ℚ) (l : List String) : ∀ acc : List String,
    ∃ ext, dedupGo thr l acc = acc ++ ext ∧
      ∀ u c v, ext = u ++ c :: v → ((acc ++ u).any fun x => is_similar c x thr) = false := by
  induction l with
  | nil =>
    intro acc
    exact ⟨[], by simp [dedupGo], fun u c v h => absurd h (by simp)⟩
  | cons c rest ih =>
    intro acc
    cases hb : (acc.any fun u => is_similar c u thr) with
    | true =>
      obtain ⟨ext, he, hp⟩ := ih acc
      refine ⟨ext, ?_, hp⟩
      rw [dedupGo, if_pos (by simp [hb])]
      exact he
    | false =>
      obtain ⟨ext, he, hp⟩ := ih (acc ++ [c])
      refine ⟨c :: ext, ?_, ?_⟩
      · rw [dedupGo, if_neg (by simp [hb]), he]
        simp
      · intro u c' v hsplit
        cases u with
        | nil =>
          simp only [List.nil_append] at hsplit
          injection hsplit with h1 h2
          subst h1
          simpa using hb
        | cons a u' =>
          rw [List.cons_append] at hsplit
          injection hsplit with h1 hext
          subst h1
          have := hp u' c' v hext
          rwa [show acc ++ c :: u' = (acc ++ [c]) ++ u' by simp]

/-- Re-running the accumulator loop on a list every element of which was
accepted against exactly its predecessors reproduces the list unchanged. -/
lemma dedupGo_replay (thr : ℚ) (suf : List String) : ∀ pre : List String,
    (∀ u c v, suf = u ++ c :: v → ((pre ++ u).any fun x => is_similar c x thr) = false) →
      dedupGo thr suf pre = pre ++ suf := by
  induction suf with
  | nil => intro pre _; simp [dedupGo]
  | cons c rest ih =>
    intro pre hp
    have h0 : (pre.any fun x => is_similar c x thr) = false := by
      have := hp [] c rest rfl
      simpa using this
    rw [dedupGo, if_neg (by simp [h0])]
    have := ih (pre ++ [c]) (fun u c' v h => by
      have := hp (c :: u) c' v (by rw [h]; rfl)
      rwa [show pre ++ c :: u = (pre ++ [c]) ++ u by simp] at this)
    rw [this]
    simp

/-- C6, confirmed: the semantic deduplicator is idempotent — applying it to
its own output returns that output unchanged, for every input and
threshold. -/
theorem deduplicate_semantic_idempotent (chunks : List String) (threshold : ℚ) :
    deduplicate_semantic (deduplicate_semantic chunks threshold) threshold =
      deduplicate_semantic chunks threshold := by
  obtain ⟨ext, he, hp⟩ := dedupGo_shape threshold chunks []
  have he' : deduplicate_semantic chunks threshold = ext := by
    simpa [deduplicate_semantic] using he
  rw [he', deduplicate_semantic]
  have := dedupGo_replay threshold ext [] (fun u c v h => by simpa using hp u c v h)
  simpa using this

/-!
### Key derivation (claim C4)
-/

/-- Every chain `("none::")^k "none"` solves the word equation
`"none::" ++ y = y ++ "::none"`. -/
lemma noneChainL_solves (k : ℕ) : n6 ++ noneChainL k = noneChainL k ++ c6 := by
  induction k with
  | zero => rfl
  | succ k ih =>
    rw [noneChainL, List.append_assoc, ih]

/-- Conversely, every solution of `"none::" ++ y = y ++ "::none"` is a
chain `("none::")^k "none"`. -/
lemma chain_of_solves (n : ℕ) : ∀ y : List Char, y.length = n → n6 ++ y = y ++ c6 →
    ∃ k, y = noneChainL k := by
  induction n using Nat.strong_induction_on with
  | _ n ih =>
    intro y hlen heq
    by_cases h6 : y.length ≤ 6
    · have h7 : y.length ≤ n6.length := by rw [show n6.length = 6 from rfl]; exact h6
      have hy : y = n6.take y.length := by
        have h1 : (y ++ c6).take y.length = y := List.take_left y c6
        have h2 : (n6 ++ y).take y.length = n6.take y.length :=
          List.take_append_of_le_length h7
        rw [← h2, heq, h1]
      have hcase : y.length = 0 ∨ y.length = 1 ∨ y.length = 2 ∨ y.length = 3 ∨
          y.length = 4 ∨ y.length = 5 ∨ y.length = 6 := by omega
      rcases hcase with h | h | h | h | h | h | h <;> rw [h] at hy <;> subst hy
      · exact absurd heq (by decide)
      · exact absurd heq (by decide)
      · exact absurd heq (by decide)
      · exact absurd heq (by decide)
      · exact ⟨0, by decide⟩
      · exact absurd heq (by decide)
      · exact absurd heq (by decide)
    · have h6' : 6 ≤ y.length := by omega
      have htake : y.take 6 = n6 := by
        have h1 : (n6 ++ y).take 6 = n6 := by
          have := List.take_left n6 y
          rwa [show n6.length = 6 from rfl] at this
        have h2 : (y ++ c6).take 6 = y.take 6 := List.take_append_of_le_length h6'
        rw [← h2, ← heq, h1]
      have hdecomp : y = n6 ++ y.drop 6 := by
        conv_lhs => rw [← List.take_append_drop 6 y]
        rw [htake]
      have heq' : n6 ++ y.drop 6 = y.drop 6 ++ c6 := by
        have h3 : n6 ++ (n6 ++ y.drop 6) = (n6 ++ y.drop 6) ++ c6 := by
          rw [← hdecomp]; exact heq
        rw [List.append_assoc] at h3
        exact List.append_cancel_left h3
      have hlt : (y.drop 6).length < n := by
        rw [List.length_drop]; omega
      obtain ⟨k, hk⟩ := ih _ hlt (y.drop 6) rfl heq'
      exact ⟨k + 1, by rw [hdecomp, hk]; rfl⟩

/-- C4, counterexample to the claim as stated: for the string `"none"` the
file-only key and the topic-only key coincide (both are `"none::none"`), so
a file-only query and a topic-only query for that string share a session. -/
theorem cacheKey_sentinel_collision :
    cacheKey none (some "none") = cacheKey (some "none") none := by decide

/-- C4, corrected: key derivation is deterministic, and the topic-only and
file-only keys for a string `x` coincide exactly when `x` (with the empty
string normalised to the sentinel) is one of the chains `"none"`,
`"none::none"`, `"none::none::none"`, ...; for every other `x` the two keys
differ. -/
theorem cacheKey_collision_characterisation :
    (∀ file topic : Option String, cacheKey file topic = cacheKey file topic) ∧
    ∀ x : String,
      (cacheKey none (some x) = cacheKey (some x) none ↔
        ∃ k, (orNone (some x)).data = noneChainL k) := by
  refine ⟨fun _ _ => rfl, fun x => ?_⟩
  have e0 : (orNone none).data ++ "::".data = n6 := by decide
  have e0' : "::".data ++ (orNone none).data = c6 := by decide
  have e1 : (cacheKey none (some x)).data = n6 ++ (orNone (some x)).data := by
    rw [cacheKey, String.data_append, String.data_append, e0]
  have e2 : (cacheKey (some x) none).data = (orNone (some x)).data ++ c6 := by
    rw [cacheKey, String.data_append, String.data_append, List.append_assoc, e0']
  rw [String.ext_iff, e1, e2]
  constructor
  · exact fun h => chain_of_solves (orNone (some x)).data.length (orNone (some x)).data rfl h
  · rintro ⟨k, hk⟩
    rw [hk]
    exact noneChainL_solves k

/-!
### Session cache and router (claims C1, C2, C3, C7, C8, C10)
-/

/-- Updating the same key twice keeps only the second session. -/
lemma Cache.update_update (c : Cache) (key : String) (s s' : Session) :
    (c.update key s).update key s' = c.update key s' := by
  funext k
  unfold Cache.update
  split
  · rfl
  · simp [*]

/-- A freshly created session with nothing served has every chunk
remaining. -/
lemma remainingOf_empty_served (file topic : Option String) (chunks : List String)
    (mode : String) : remainingOf ⟨file, topic, chunks, ∅, mode⟩ = chunks := by
  unfold remainingOf
  rw [List.filter_eq_self.mpr (by intro p _; simp), List.enum_map_snd]

/-- C2, confirmed: a query that misses the cache and whose retrieval fails
or returns zero chunks leaves the cache unchanged (in particular creates no
session) and returns the error payload or the empty-result payload
respectively. -/
theorem failed_build_leaves_cache_unchanged (env : Env) (cache : Cache)
    (file topic : Option String) (r : ℕ)
    (hmiss : cache (cacheKey file topic) = none) :
    (∀ e, get_relevant_chunks env file topic 5 = .error e →
      (get_chunk env cache file topic r).1 = cache ∧
      (get_chunk env cache file topic r).2 = { noResponse with error := some e.msg }) ∧
    (∀ res, get_relevant_chunks env file topic 5 = .ok res → res.context_chunks = [] →
      (get_chunk env cache file topic r).1 = cache ∧
      (get_chunk env cache file topic r).2 =
        { noResponse with
            message := some "⚠️ No relevant chunks found.", mode := some res.mode }) := by
  constructor
  · intro e he
    simp [get_chunk, hmiss, he]
  · intro res hres hempty
    simp [get_chunk, hmiss, hres, hempty]

/-- Closed instance of C2: a file-not-found failure and a zero-chunk
retrieval, each on an empty cache. -/
theorem failed_build_leaves_cache_unchanged_witness :
    ((get_chunk envFail emptyCache (some "f") none 0).1 = emptyCache ∧
      (get_chunk envFail emptyCache (some "f") none 0).2 =
        { noResponse with error := some (RagError.fileNotFound "f").msg }) ∧
    ((get_chunk envEmptyChunks emptyCache (some "g") none 0).1 = emptyCache ∧
      (get_chunk envEmptyChunks emptyCache (some "g") none 0).2 =
        { noResponse with
            message := some "⚠️ No relevant chunks found.", mode := some "file_only" }) := by
  refine ⟨?_, ?_⟩
  · exact (failed_build_leaves_cache_unchanged envFail emptyCache (some "f") none 0 rfl).1
      (RagError.fileNotFound "f") rfl
  · exact (failed_build_leaves_cache_unchanged envEmptyChunks emptyCache (some "g") none 0
      rfl).2 ⟨"file_only", some "g", none, 0, []⟩ rfl rfl

/-- C3, counterexample to the claim as stated: a Created response serves a
chunk but carries no `chunk_index` field (the creation branch of main.py
omits it), so the claim that the Created response carries the served chunk's
index is false. -/
theorem created_response_omits_index :
    (get_chunk envTwoChunks emptyCache (some "f") none 0).2.chunk = some "a" ∧
    (get_chunk envTwoChunks emptyCache (some "f") none 0).2.message =
      some "🆕 Cache created and first chunk served." ∧
    (get_chunk envTwoChunks emptyCache (some "f") none 0).2.chunk_index = none := by
  exact ⟨rfl, rfl, rfl⟩

/-- C3, corrected: on a cache miss with `N ≥ 1` retrieved chunks, a session
is created whose served set is exactly the first index of the served chunk's
content, the Created response carries the served chunk and remaining count
`N - 1` but omits the chunk index, and the pick-and-mark agrees with a
cache-hit serve on the fresh session (same final cache, same served
chunk). -/
theorem created_session_pick_and_mark (env : Env) (cache : Cache)
    (file topic : Option String) (r : ℕ) (res : RetrievalResult)
    (hmiss : cache (cacheKey file topic) = none)
    (hok : get_relevant_chunks env file topic 5 = .ok res)
    (hne : res.context_chunks ≠ []) :
    (get_chunk env cache file topic r).2 =
      ⟨some "🆕 Cache created and first chunk served.", some res.mode, some file, some topic,
        none, some (res.context_chunks.getD (r % res.context_chunks.length) ""),
        some (res.context_chunks.length - 1), none⟩ ∧
    (get_chunk env cache file topic r).1 =
      cache.update (cacheKey file topic)
        ⟨file, topic, res.context_chunks,
          {res.context_chunks.indexOf (res.context_chunks.getD (r % res.context_chunks.length) "")},
          res.mode⟩ ∧
    (get_chunk env
        (cache.update (cacheKey file topic) ⟨file, topic, res.context_chunks, ∅, res.mode⟩)
        file topic r).1 = (get_chunk env cache file topic r).1 ∧
    (get_chunk env
        (cache.update (cacheKey file topic) ⟨file, topic, res.context_chunks, ∅, res.mode⟩)
        file topic r).2.chunk =
      some (res.context_chunks.getD (r % res.context_chunks.length) "") := by
  have hup : (cache.update (cacheKey file topic)
      ⟨file, topic, res.context_chunks, ∅, res.mode⟩) (cacheKey file topic) =
      some ⟨file, topic, res.context_chunks, ∅, res.mode⟩ := by
    simp [Cache.update]
  refine ⟨?_, ?_, ?_, ?_⟩
  · simp [get_chunk, hmiss, hok, hne]
  · simp [get_chunk, hmiss, hok, hne]
  · simp only [get_chunk, hmiss, hok, hup, remainingOf_empty_served, hne, if_neg hne]
    rw [Cache.update_update]
    simp
  · simp only [get_chunk, hup, remainingOf_empty_served, if_neg hne]

/-- Closed instance of C3's corrected statement at a concrete retrieval of
two distinct chunks. -/
theorem created_session_pick_and_mark_witness :
    (get_chunk envTwoChunks emptyCache (some "f") none 1).2 =
      ⟨some "🆕 Cache created and first chunk served.", some "file_only", some (some "f"),
        some none, none, some "b", some 1, none⟩ ∧
    (get_chunk envTwoChunks emptyCache (some "f") none 1).1 =
      emptyCache.update "f::none" ⟨some "f", none, ["a", "b"], {1}, "file_only"⟩ ∧
    (get_chunk envTwoChunks
        (emptyCache.update "f::none" ⟨some "f", none, ["a", "b"], ∅, "file_only"⟩)
        (some "f") none 1).1 = (get_chunk envTwoChunks emptyCache (some "f") none 1).1 ∧
    (get_chunk envTwoChunks
        (emptyCache.update "f::none" ⟨some "f", none, ["a", "b"], ∅, "file_only"⟩)
        (some "f") none 1).2.chunk = some "b" := by
  have h := created_session_pick_and_mark envTwoChunks emptyCache (some "f") none 1
    ⟨"file_only", some "f", none, 2, ["a", "b"]⟩ rfl rfl (by decide)
  exact ⟨h.1, h.2.1, h.2.2.1, h.2.2.2⟩

/-- C1: with a session built from two chunks of identical content
(reachable: the file-only branch applies no deduplication), the first serve
marks index 0, the second serve again reports and re-marks index 0 (because
`chunks.index(chunk)` finds the first occurrence of the picked content), and
the third call — the (N+1)-th for N = 2 — still serves from the cache
instead of clearing it, with the session still present afterwards. -/
theorem duplicate_chunks_defeat_no_repeat :
    (get_chunk envDupChunks emptyCache (some "f") none 0).1 "f::none" =
      some ⟨some "f", none, ["a", "a"], {0}, "file_only"⟩ ∧
    (get_chunk envDupChunks ((get_chunk envDupChunks emptyCache (some "f") none 0).1)
      (some "f") none 0).2.chunk_index = some 1 ∧
    (get_chunk envDupChunks ((get_chunk envDupChunks emptyCache (some "f") none 0).1)
      (some "f") none 0).1 "f::none" =
      some ⟨some "f", none, ["a", "a"], {0}, "file_only"⟩ ∧
    (get_chunk envDupChunks
      ((get_chunk envDupChunks ((get_chunk envDupChunks emptyCache (some "f") none 0).1)
        (some "f") none 0).1) (some "f") none 0).2.message = some "✅ Served from cache." ∧
    (get_chunk envDupChunks
      ((get_chunk envDupChunks ((get_chunk envDupChunks emptyCache (some "f") none 0).1)
        (some "f") none 0).1) (some "f") none 0).2.chunk_index = some 1 ∧
    (get_chunk envDupChunks
      ((get_chunk envDupChunks ((get_chunk envDupChunks emptyCache (some "f") none 0).1)
        (some "f") none 0).1) (some "f") none 0).1 "f::none" ≠ none := by
  decide

/-- For a nonempty topic and no file the router always takes the topic-only
branch and succeeds with the exact-deduplicated corpus accumulation. -/
lemma get_relevant_chunks_topic_only (corpus : List String) (fe : String → Bool)
    (fo : String → Except String (List String))
    (iq : String → String → ℕ → Except String (List String)) (t : String) (k : ℕ)
    (ht : t ≠ "") :
    get_relevant_chunks ⟨corpus, fe, fo, iq⟩ none (some t) k =
      .ok ⟨"topic_only", none, some t,
        (dedupExact (corpus.foldl (topicStep ⟨corpus, fe, fo, iq⟩ t k) [])).length,
        dedupExact (corpus.foldl (topicStep ⟨corpus, fe, fo, iq⟩ t k) [])⟩ := by
  have htr : truthy (some t) = true := by simp [truthy, ht]
  have htn : truthy none = false := rfl
  simp [get_relevant_chunks, htr, htn]

/-- C7, confirmed: in topic-only mode a document whose index build or query
fails is skipped — the call returns exactly what it would return on the
corpus without that document — and the overall call still succeeds with mode
`topic_only` (the accumulated, exact-deduplicated chunks of the remaining
documents). -/
theorem topic_only_skips_failed_documents (env : Env) (t : String) (k : ℕ)
    (l₁ l₂ : List String) (f : String) (e : RagError)
    (ht : t ≠ "") (hc : env.corpus = l₁ ++ f :: l₂)
    (hf : build_and_query env f t k = .error e) :
    get_relevant_chunks env none (some t) k =
      get_relevant_chunks ⟨l₁ ++ l₂, env.fileExists, env.fileOnly, env.indexQuery⟩
        none (some t) k ∧
    ∃ res, get_relevant_chunks env none (some t) k = .ok res ∧ res.mode = "topic_only" := by
  obtain ⟨corpus, fe, fo, iq⟩ := env
  simp only at hc hf ⊢
  subst hc
  have hg : ∀ acc, topicStep ⟨l₁ ++ f :: l₂, fe, fo, iq⟩ t k acc f = acc := by
    intro acc
    simp only [topicStep, hf]
    split <;> rfl
  have hstep : topicStep ⟨l₁ ++ l₂, fe, fo, iq⟩ t k =
      topicStep ⟨l₁ ++ f :: l₂, fe, fo, iq⟩ t k := by
    funext acc g
    simp [topicStep, build_and_query]
  have hfold : List.foldl (topicStep ⟨l₁ ++ f :: l₂, fe, fo, iq⟩ t k) [] (l₁ ++ f :: l₂) =
      List.foldl (topicStep ⟨l₁ ++ f :: l₂, fe, fo, iq⟩ t k) [] (l₁ ++ l₂) := by
    rw [List.foldl_append, List.foldl_append, List.foldl_cons, hg]
  refine ⟨?_, ?_⟩
  · rw [get_relevant_chunks_topic_only (l₁ ++ f :: l₂) fe fo iq t k ht,
      get_relevant_chunks_topic_only (l₁ ++ l₂) fe fo iq t k ht, hstep, hfold]
  · rw [get_relevant_chunks_topic_only (l₁ ++ f :: l₂) fe fo iq t k ht]
    exact ⟨_, rfl, rfl⟩

/-- Closed instance of C7: a two-document corpus whose first document's
index build fails. -/
theorem topic_only_skips_failed_documents_witness :
    (get_relevant_chunks envSkip none (some "topic") 5 =
      get_relevant_chunks ⟨["good.md"], envSkip.fileExists, envSkip.fileOnly,
        envSkip.indexQuery⟩ none (some "topic") 5) ∧
    ∃ res, get_relevant_chunks envSkip none (some "topic") 5 = .ok res ∧
      res.mode = "topic_only" :=
  topic_only_skips_failed_documents envSkip "topic" 5 [] ["good.md"] "bad.md"
    (.upstream "index build failure") (by decide) rfl rfl

/-- `build_vectorstore` and the retriever can fail with a missing file or an
upstream error, never with the invalid-query ValueError. -/
lemma build_and_query_ne_invalid (env : Env) (f t : String) (k : ℕ) :
    build_and_query env f t k ≠ .error .invalidQuery := by
  simp only [build_and_query]
  split
  · simp
  · split <;> simp

/-- C8, counterexample to the claim as stated: with both parameters present
but empty (neither is absent), retrieval still fails with the invalid-query
error, so "fails with InvalidQuery exactly when both file and topic are
absent" does not hold. -/
theorem invalid_query_without_absent_params :
    get_relevant_chunks envFail (some "") (some "") 5 = .error .invalidQuery ∧
    (some "" : Option String) ≠ none := by
  exact ⟨rfl, by decide⟩

/-- C8, corrected: retrieval fails with the invalid-query error exactly when
both parameters are falsy (absent or empty); and a query with neither
parameter, for whose derived key `"none::none"` no session exists, returns
the structured error payload, serves no chunk, and leaves the cache
unchanged. -/
theorem invalid_query_iff_falsy :
    (∀ (env : Env) (file topic : Option String) (k : ℕ),
      get_relevant_chunks env file topic k = .error .invalidQuery ↔
        truthy file = false ∧ truthy topic = false) ∧
    (∀ (env : Env) (cache : Cache) (r : ℕ), cache "none::none" = none →
      (get_chunk env cache none none r).1 = cache ∧
      (get_chunk env cache none none r).2.error = some RagError.invalidQuery.msg ∧
      (get_chunk env cache none none r).2.chunk = none ∧
      (get_chunk env cache none none r).2.chunk_index = none) := by
  constructor
  · intro env file topic k
    constructor
    · intro h
      cases hfb : truthy file <;> cases htb : truthy topic
      · exact ⟨rfl, rfl⟩
      · simp [get_relevant_chunks, hfb, htb] at h
      · simp only [get_relevant_chunks, hfb, htb] at h
        simp only [Bool.true_eq_false, false_and, and_false, if_false, true_and,
          and_true, if_true, Bool.false_eq_true, and_self, if_neg, ite_false] at h
        split at h
        · simp_all
        · split at h <;> simp_all
      · simp only [get_relevant_chunks, hfb, htb] at h
        simp only [Bool.true_eq_false, false_and, and_false, if_false, and_self] at h
        split at h
        · rename_i e heq
          rw [show (Except.error e : Except RagError RetrievalResult) = .error .invalidQuery ↔
              e = .invalidQuery by simp] at h
          subst h
          exact absurd heq (build_and_query_ne_invalid env _ _ k)
        · simp at h
    · rintro ⟨hf, ht⟩
      simp [get_relevant_chunks, hf, ht]
  · intro env cache r h
    have h' : cache (cacheKey none none) = none := h
    have hinv : get_relevant_chunks env none none 5 = .error .invalidQuery := rfl
    refine ⟨?_, ?_, ?_, ?_⟩ <;> simp [get_chunk, h', hinv, noResponse]

/-- Closed instance of C8's corrected statement. -/
theorem invalid_query_iff_falsy_witness :
    (get_relevant_chunks envFail (some "a") none 5 = .error .invalidQuery ↔
      truthy (some "a") = false ∧ truthy none = false) ∧
    ((get_chunk envFail emptyCache none none 0).1 = emptyCache ∧
      (get_chunk envFail emptyCache none none 0).2.error =
        some RagError.invalidQuery.msg ∧
      (get_chunk envFail emptyCache none none 0).2.chunk = none ∧
      (get_chunk envFail emptyCache none none 0).2.chunk_index = none) :=
  ⟨invalid_query_iff_falsy.1 envFail (some "a") none 5,
    invalid_query_iff_falsy.2 envFail emptyCache 0 rfl⟩

/-- C10, confirmed: an empty-string parameter behaves as an absent one —
query, clear and stop derive the same cache key for `""` as for None, the
retrieval router's result is identical under `""` and None in either
position (so mode selection treats `""` as absent), a query with both
parameters empty fails as an invalid query rather than as a missing file,
and the clear/stop endpoints behave identically under `""` and None. -/
theorem empty_string_param_equals_absent :
    (∀ topic, cacheKey (some "") topic = cacheKey none topic) ∧
    (∀ file, cacheKey file (some "") = cacheKey file none) ∧
    (∀ (env : Env) (topic : Option String) (k : ℕ),
      get_relevant_chunks env (some "") topic k = get_relevant_chunks env none topic k) ∧
    (∀ (env : Env) (file : Option String) (k : ℕ),
      get_relevant_chunks env file (some "") k = get_relevant_chunks env file none k) ∧
    (∀ (env : Env) (k : ℕ),
      get_relevant_chunks env (some "") (some "") k = .error .invalidQuery) ∧
    (∀ (cache : Cache) (topic : Option String),
      clear_cache cache (some "") topic = clear_cache cache none topic) ∧
    (∀ (cache : Cache) (file : Option String),
      clear_cache cache file (some "") = clear_cache cache file none) ∧
    (∀ (cache : Cache) (topic : Option String),
      stop_session cache (some "") topic = stop_session cache none topic) ∧
    (∀ (cache : Cache) (file : Option String),
      stop_session cache file (some "") = stop_session cache file none) := by
  refine ⟨fun _ => rfl, fun _ => rfl, ?_, ?_, fun _ _ => rfl, fun _ _ => rfl, fun _ _ => rfl,
    fun _ _ => rfl, fun _ _ => rfl⟩
  · intro env topic k
    have h1 : truthy (some "") = false := rfl
    have h2 : truthy none = false := rfl
    cases htb : truthy topic <;> simp [get_relevant_chunks, htb, h1, h2]
  · intro env file k
    have h1 : truthy (some "") = false := rfl
    have h2 : truthy none = false := rfl
    cases hfb : truthy file <;> simp [get_relevant_chunks, hfb, h1, h2]

/-!
### Segmenter coverage (claim C9)
-/

lemma nwM_nil : nwM [] = 0 := rfl

lemma nwM_append (a b : List Char) : nwM (a ++ b) = nwM a + nwM b := by
  simp [nwM, List.filter_append]

lemma nwM_nl_cons (s : List Char) : nwM ('\n' :: s) = nwM s := by
  have h : ws '\n' = true := by decide
  simp [nwM, List.filter_cons, h]

lemma nwM_dropWhile_ws (s : List Char) : nwM (s.dropWhile ws) = nwM s := by
  induction s with
  | nil => rfl
  | cons c s ih =>
    by_cases h : ws c = true
    · rw [List.dropWhile_cons_of_pos h, ih]
      simp [nwM, List.filter_cons, h]
    · rw [List.dropWhile_cons_of_neg (by simp [h])]

lemma nwM_reverse (s : List Char) : nwM s.reverse = nwM s := by
  simp [nwM, List.filter_reverse]

lemma nwM_strip (s : List Char) : nwM (strip s) = nwM s := by
  unfold strip
  rw [nwM_reverse, nwM_dropWhile_ws, nwM_reverse, nwM_dropWhile_ws]

lemma nwM_eq_zero_of_strip {s : List Char} (h : strip s = []) : nwM s = 0 := by
  rw [← nwM_strip s, h, nwM_nil]

lemma nwM_joinNL (ts : List (List Char)) : nwM (joinNL ts) = (ts.map nwM).sum := by
  induction ts with
  | nil => rfl
  | cons t ts ih =>
    cases ts with
    | nil => simp [joinNL]
    | cons t2 ts2 =>
      rw [show joinNL (t :: t2 :: ts2) = t ++ '\n' :: joinNL (t2 :: ts2) from rfl,
        nwM_append, nwM_nl_cons, ih]
      simp

lemma chunkSum_append_singleton (l : List (List Char)) (c : List Char) :
    chunkSum (l ++ [c]) = chunkSum l + nwM c := by
  simp [chunkSum]

lemma chunkSum_cons (c : List Char) (l : List (List Char)) :
    chunkSum (c :: l) = nwM c + chunkSum l := by
  simp [chunkSum]

lemma chunkSum_appendLast (l : List (List Char)) (t : List Char) :
    chunkSum (appendLast l t) = chunkSum l + nwM t := by
  induction l with
  | nil => simp [appendLast, chunkSum]
  | cons c rest ih =>
    cases rest with
    | nil =>
      rw [show appendLast [c] t = [c ++ '\n' :: t] from rfl]
      simp [chunkSum, nwM_append, nwM_nl_cons]
    | cons c2 rest2 =>
      rw [show appendLast (c :: c2 :: rest2) t = c :: appendLast (c2 :: rest2) t from rfl,
        chunkSum_cons, chunkSum_cons, ih]
      abel

lemma elemSum_nil : elemSum [] = 0 := rfl

lemma elemSum_cons (e : TextElement) (l : List TextElement) :
    elemSum (e :: l) = nwM e.text + elemSum l := by
  simp [elemSum]

lemma lookahead_conserves (l : List TextElement) :
    ((lookahead l).1.map nwM).sum + elemSum (l.drop (lookahead l).2) = elemSum l := by
  induction l with
  | nil => simp [lookahead, elemSum_nil]
  | cons e rest ih =>
    rw [lookahead]
    by_cases h1 : strip e.text = []
    · simp only [h1, if_true, eq_self_iff_true, if_pos, List.drop_succ_cons]
      rw [elemSum_cons, nwM_eq_zero_of_strip h1, zero_add]
      exact ih
    · rw [if_neg h1]
      by_cases h2 : e.kind = "Title" ∨ wordCount (strip e.text) > 60
      · rw [if_pos h2]
        simp [elemSum_cons]
      · rw [if_neg h2]
        by_cases h3 : e.kind = "ListItem" ∨ startDashOrWordColon (strip e.text) = true
        · rw [if_pos h3]
          simp only [List.map_cons, List.sum_cons, List.drop_succ_cons]
          rw [elemSum_cons, ← nwM_strip e.text, add_assoc]
          rw [ih]
        · rw [if_neg h3]
          simp [elemSum_cons]

lemma merged_conserves (e : TextElement) (rest : List TextElement) :
    nwM (strip e.text ++ '\n' :: joinNL (lookahead rest).1) +
      elemSum (rest.drop (lookahead rest).2) = nwM e.text + elemSum rest := by
  rw [nwM_append, nwM_nl_cons, nwM_joinNL, nwM_strip, add_assoc, lookahead_conserves]

lemma nwM_glue (cur t2 : List Char) :
    nwM (if cur = [] then t2 else cur ++ '\n' :: t2) = nwM cur + nwM t2 := by
  split
  · rename_i h
    rw [h, nwM_nil, zero_add]
  · rw [nwM_append, nwM_nl_cons]

lemma segLoop_conserves (mc : ℕ) (n : ℕ) : ∀ els : List TextElement, els.length = n →
    ∀ (cur : List Char) (ty : Option String) (chunks : List (List Char)),
      chunkSum (segLoop mc els cur ty chunks) = chunkSum chunks + nwM cur + elemSum els := by
  induction n using Nat.strong_induction_on with
  | _ n ih =>
    intro els hlen cur ty chunks
    cases els with
    | nil =>
      rw [segLoop]
      by_cases h : strip cur = []
      · rw [if_pos h, elemSum_nil, nwM_eq_zero_of_strip h]
        simp
      · rw [if_neg h, chunkSum_append_singleton, nwM_strip, elemSum_nil]
        simp
    | cons e rest =>
      have hrest : rest.length < n := by
        simp only [List.length_cons] at hlen
        omega
      by_cases h1 : strip e.text = []
      · rw [segLoop]
        simp only [h1, if_true, eq_self_iff_true, if_pos]
        rw [ih rest.length hrest rest rfl cur ty chunks, elemSum_cons,
          nwM_eq_zero_of_strip h1, zero_add]
      · by_cases hm : endsColon (strip e.text) = true ∧ wordCount (strip e.text) < 30 ∧
            (lookahead rest).1 ≠ []
        · have hdrop : (rest.drop (lookahead rest).2).length < n := by
            rw [List.length_drop]
            omega
          have ht2 : nwM (strip e.text ++ '\n' :: joinNL (lookahead rest).1) +
              elemSum (rest.drop (lookahead rest).2) = nwM e.text + elemSum rest :=
            merged_conserves e rest
          by_cases hf : isFragment (strip e.text ++ '\n' :: joinNL (lookahead rest).1) = true ∧
              chunks ≠ []
          · rw [segLoop]
            simp only [h1, hm, hf, if_true, if_false, and_true, and_self, true_and,
              eq_self_iff_true, ite_true, ite_false, ne_eq, not_false_eq_true]
            rw [ih _ hdrop _ rfl cur ty _, chunkSum_appendLast, elemSum_cons]
            conv_rhs => rw [← ht2]
            abel
          · rw [segLoop]
            simp only [h1, hm, hf, if_true, if_false, and_true, and_self, true_and,
              eq_self_iff_true, ite_true, ite_false, ne_eq, not_false_eq_true]
            by_cases hb : cur.length +
                (strip e.text ++ '\n' :: joinNL (lookahead rest).1).length > mc ∨
                e.kind = "Title" ∨ (ty.isSome = true ∧ ty ≠ some e.kind ∧ cur.length > 0)
            · simp only [hb, if_true, ite_true, eq_self_iff_true]
              rw [ih _ hdrop _ rfl, chunkSum_append_singleton, nwM_strip, elemSum_cons]
              conv_rhs => rw [← ht2]
              abel
            · simp only [hb, if_false, ite_false]
              rw [ih _ hdrop _ rfl, nwM_glue, elemSum_cons]
              conv_rhs => rw [← ht2]
              abel
        · have ht2 : nwM (strip e.text) + elemSum rest = nwM e.text + elemSum rest := by
            rw [nwM_strip]
          by_cases hf : isFragment (strip e.text) = true ∧ chunks ≠ []
          · rw [segLoop]
            simp only [h1, hm, hf, if_true, if_false, and_true, and_self, true_and,
              eq_self_iff_true, ite_true, ite_false, ne_eq, not_false_eq_true]
            rw [ih _ hrest _ rfl cur ty _, chunkSum_appendLast, elemSum_cons]
            conv_rhs => rw [← ht2]
            abel
          · rw [segLoop]
            simp only [h1, hm, hf, if_true, if_false, and_true, and_self, true_and,
              eq_self_iff_true, ite_true, ite_false, ne_eq, not_false_eq_true]
            by_cases hb : cur.length + (strip e.text).length > mc ∨
                e.kind = "Title" ∨ (ty.isSome = true ∧ ty ≠ some e.kind ∧ cur.length > 0)
            · simp only [hb, if_true, ite_true, eq_self_iff_true]
              rw [ih _ hrest _ rfl, chunkSum_append_singleton, nwM_strip, elemSum_cons]
              conv_rhs => rw [← ht2]
              abel
            · simp only [hb, if_false, ite_false]
              rw [ih _ hrest _ rfl, nwM_glue, elemSum_cons]
              conv_rhs => rw [← ht2]
              abel

/-- C9, confirmed: every non-whitespace character of the input elements'
text appears in exactly one chunk of the segmentation loop's output — the
multiset of non-whitespace characters over the pre-filter chunks equals the
multiset over the elements, so no character is lost or duplicated by the
lead-in merge, fragment absorption, break or flush rules — and the published
output is exactly that chunk list with the 5-or-fewer-words chunks
discarded (the only lossy step). -/
theorem segmenter_total_coverage (elements : List TextElement) (maxChars : ℕ) :
    chunkSum (extract_chunks_raw elements maxChars) = elemSum elements ∧
    extract_chunks elements maxChars =
      (extract_chunks_raw elements maxChars).filter (fun c => decide (wordCount c > 5)) := by
  refine ⟨?_, rfl⟩
  rw [extract_chunks_raw, segLoop_conserves maxChars elements.length elements rfl]
  simp [chunkSum, nwM_nil]

end NotesHub
